import Mathlib

/-!
# Timekeeper app — formal model of the core logic (`src/app.js`)

This file shallowly embeds the pay-period / shift-adjustment core of the
timekeeper application and proves the specification's claims about it.

Conventions of the embedding:

* A stored timestamp is a JavaScript string such as `'2025-08-02T09:00'`, the
  empty string standing for "not set".  We embed such a string as a `TimeStr`:
  `empty` for `''` (falsy in JS), `invalid raw` for a non-empty string that
  `new Date(...)` cannot parse (its `getTime()` is `NaN`), and `valid ms` for a
  non-empty string parsing to `ms` milliseconds since the epoch.  Minute
  precision means `60000 ∣ ms`.
* JavaScript numbers that hold hours, rates and pay are embedded as exact
  rationals `ℚ`; `Math.round` is `jsRound` (round half toward +∞, i.e.
  `⌊x + 1/2⌋`), which is the ECMAScript semantics of `Math.round`.
* Calendar dates (the `YYYY-MM-DD` day keys) are embedded as integer day
  numbers (days since the epoch); `daysFromCivil` is the Gregorian-calendar
  mapping that `Date.UTC`/ISO-date parsing implements, so that the concrete
  dates of the spec's examples can be named.  A difference of two day-aligned
  `Date`s divided by `86400000` is exactly the difference of day numbers.
* `MockFirestore` collections (plain JS objects keyed by document id, kept in
  insertion order) are embedded as association lists `List (String × α)`;
  `set` overwrites in place or appends, `update` merges fields into an
  existing document, `delete` removes the key, `where field == value` filters
  in insertion order.
-/

namespace Timekeeper

/-- A stored timestamp string: `''`, a non-empty unparseable string, or a
string parsing to `ms` milliseconds since the epoch (from `src/app.js`, where
times are stored as `'YYYY-MM-DDTHH:MM'` strings and read with `new Date`). -/
inductive TimeStr where
  | empty : TimeStr
  | invalid (raw : String) : TimeStr
  | valid (ms : Int) : TimeStr
deriving DecidableEq, Repr

/-- JS truthiness of the stored string (`''` is falsy, any non-empty string is
truthy) — the `shift.timeIn || ''`-style tests in `app.js`. -/
def TimeStr.truthy : TimeStr → Bool
  | .empty => false
  | .invalid _ => true
  | .valid _ => true

/-- `new Date(s).getTime()`: `none` is `NaN` (empty or unparseable string). -/
def TimeStr.parse : TimeStr → Option Int
  | .empty => none
  | .invalid _ => none
  | .valid ms => some ms

/-- ECMAScript `Math.round`: round half toward +∞, `⌊x + 1/2⌋`. -/
def jsRound (q : ℚ) : Int := Int.floor (q + 1/2)

/-- `computeHours` (app.js:674-682): parse both strings, return 0 when the
difference is `NaN` or negative, else round the millisecond difference to the
nearest whole minute and divide by 60. -/
def computeHours (startStr endStr : TimeStr) : ℚ :=
  match startStr.parse, endStr.parse with
  | some s, some e =>
    let diffMs : Int := e - s
    if diffMs < 0 then 0
    else (jsRound ((diffMs : ℚ) / 60000) : ℚ) / 60
  | _, _ => 0

/-- `Math.round(hours * rate * 100) / 100` — pay rounded to the cent
(app.js:585). -/
def roundCent (q : ℚ) : ℚ := (jsRound (q * 100) : ℚ) / 100

/-! ## Pay-period arithmetic

`renderEmployeeDashboard` (app.js:857-866) computes
`diffDays = Math.floor((todayDate - baseStart) / 86400000)`,
`currentIndex = Math.floor(diffDays / 14)`, and the period bounds
`baseStart + 14*currentIndex` … `+ 13` days.  On integer day numbers the first
floor is exact and `Math.floor(x / 14)` is floor division, which for the
positive divisor 14 is Lean's `Int` division `/` (`Int.ediv`). -/

/-- Period index of day `d` for anchor day `anchor`:
`Math.floor((d - anchor) / 14)`. -/
def periodIndexOf (d anchor : Int) : Int := (d - anchor) / 14

/-- Inclusive period bounds `[anchor + 14k, anchor + 14k + 13]`
(app.js:861-864: `setDate(+ index*14)` and `setDate(+ 13)`). -/
def periodBounds (k anchor : Int) : Int × Int :=
  (anchor + 14 * k, anchor + 14 * k + 13)

/-- Day number (days since 1970-01-01) of the Gregorian date `y-m-d` — the
mapping ISO-date parsing (`new Date('YYYY-MM-DD')`, UTC midnight) implements;
standard civil-from-days algorithm with floor division. -/
def daysFromCivil (y m d : Int) : Int :=
  let y' := if m ≤ 2 then y - 1 else y
  let era := y' / 400
  let yoe := y' - era * 400
  let mp := if 2 < m then m - 3 else m + 9
  let doy := (153 * mp + 2) / 5 + d - 1
  let doe := yoe * 365 + yoe / 4 - yoe / 100 + doy
  era * 146097 + doe - 719468

/-! ## Data model and document store -/

/-- A shift document (app.js:931-938): all five time fields are stored
strings; `username` and `date` identify the shift, the doc id being
`username ++ "_" ++ date`. -/
structure Shift where
  username : String
  date : String
  timeIn : TimeStr
  timeOut : TimeStr
  adjTimeIn : TimeStr
  adjTimeOut : TimeStr
deriving DecidableEq, Repr

/-- A user document (app.js:734-739). -/
structure User where
  username : String
  role : String
  hourlyRate : ℚ
  passwordHash : String
deriving DecidableEq, Repr

/-- A `MockFirestore` collection: documents keyed by id, in insertion order
(app.js:44-109, a plain JS object). -/
abbrev Collection (α : Type) : Type := List (String × α)

/-- `doc(id).get()` (app.js:56-63): the document stored under `id`. -/
def getDoc {α : Type} (l : Collection α) (id : String) : Option α :=
  (l.find? (fun p => p.1 = id)).map (fun p => p.2)

/-- `doc(id).set(v)` (app.js:64-66): upsert — overwrite in place if the key
exists (JS objects keep the original insertion position), else append. -/
def setDoc {α : Type} (l : Collection α) (id : String) (v : α) : Collection α :=
  if l.any (fun p => p.1 = id) then
    l.map (fun p => if p.1 = id then (p.1, v) else p)
  else l ++ [(id, v)]

/-- `doc(id).update(partial)` (app.js:67-72) for a fixed field patch `f`:
merge into the existing document; the absent-key failure case does not arise
at the call sites proved about (the document was just read). -/
def updateDoc {α : Type} (l : Collection α) (id : String) (f : α → α) :
    Collection α :=
  l.map (fun p => if p.1 = id then (p.1, f p.2) else p)

/-- `doc(id).delete()` (app.js:73-75). -/
def deleteDoc {α : Type} (l : Collection α) (id : String) : Collection α :=
  l.filter (fun p => ¬ p.1 = id)

/-- The three collections the app uses (`users`, `shifts`, `settings` — the
latter holding only the `config` document's `payPeriodStart`). -/
structure Store where
  users : Collection User
  shifts : Collection Shift
  payPeriodConfig : Collection String
deriving DecidableEq, Repr

/-! ## Effective range, rows and totals -/

/-- Effective start (app.js:578): `adjInStr || startTimeStr`. -/
def effectiveStart (s : Shift) : TimeStr :=
  if s.adjTimeIn.truthy then s.adjTimeIn else s.timeIn

/-- Effective end (app.js:579): `adjOutStr || endTimeStr`. -/
def effectiveEnd (s : Shift) : TimeStr :=
  if s.adjTimeOut.truthy then s.adjTimeOut else s.timeOut

/-- One table row's `(hours, pay)` (app.js:581-588): both stay 0 unless both
effective endpoints are truthy; pay is rounded to the cent per row. -/
def computeRow (s : Shift) (hourlyRate : ℚ) : ℚ × ℚ :=
  if (effectiveStart s).truthy ∧ (effectiveEnd s).truthy then
    let hours := computeHours (effectiveStart s) (effectiveEnd s)
    (hours, roundCent (hours * hourlyRate))
  else (0, 0)

/-- The rendered rows of `updateTable` (app.js:567-599): one `<tr>` per shift
of the period, each carrying its computed hours and pay. -/
def updateTableRows (shifts : List Shift) (hourlyRate : ℚ) :
    List (Shift × ℚ × ℚ) :=
  shifts.map (fun s => (s, computeRow s hourlyRate))

/-- The running `(totalHours, totalPay)` of `updateTable` (app.js:565-588).
The code adds a row's hours and pay only inside the both-endpoints branch;
since `computeRow` yields `(0, 0)` otherwise, adding unconditionally is the
same fold. -/
def updateTableTotals (shifts : List Shift) (hourlyRate : ℚ) : ℚ × ℚ :=
  shifts.foldl
    (fun acc s =>
      let r := computeRow s hourlyRate
      (acc.1 + r.1, acc.2 + r.2))
    (0, 0)

/-! ## Punch state machine and employee management

Failing operations show an `alert` and return without touching the store;
we embed each operation as returning the (possibly unchanged) store together
with an optional error. -/

/-- The user-facing failures of the punch operations. -/
inductive PunchError where
  | alreadyPunchedIn
  | notPunchedIn
  | alreadyPunchedOut
deriving DecidableEq, Repr

/-- Failures of the admin add-employee form handler. -/
inductive AddError where
  | missingFields
  | duplicateUsername
deriving DecidableEq, Repr

/-- `punchIn` (app.js:917-939) at device time `now` (minute-precision epoch
milliseconds) on day key `date`: if today's shift document exists with a
truthy `timeIn`, alert `AlreadyPunchedIn` and stop; otherwise `set` the
document with `timeIn = now` and the three other time fields cleared. -/
def punchIn (st : Store) (username date : String) (now : Int) :
    Store × Option PunchError :=
  let docId := username ++ "_" ++ date
  let fresh : Shift :=
    { username := username, date := date, timeIn := .valid now,
      timeOut := .empty, adjTimeIn := .empty, adjTimeOut := .empty }
  match getDoc st.shifts docId with
  | some data =>
    if data.timeIn.truthy then (st, some .alreadyPunchedIn)
    else ({ st with shifts := setDoc st.shifts docId fresh }, none)
  | none => ({ st with shifts := setDoc st.shifts docId fresh }, none)

/-- `punchOut` (app.js:948-964) at device time `now` on day key `date`: fail
`NotPunchedIn` when the document is absent or `timeIn` is falsy, fail
`AlreadyPunchedOut` when `timeOut` is truthy, else `update` just the
`timeOut` field. -/
def punchOut (st : Store) (username date : String) (now : Int) :
    Store × Option PunchError :=
  let docId := username ++ "_" ++ date
  match getDoc st.shifts docId with
  | none => (st, some .notPunchedIn)
  | some data =>
    if ¬ data.timeIn.truthy then (st, some .notPunchedIn)
    else if data.timeOut.truthy then (st, some .alreadyPunchedOut)
    else
      ({ st with
          shifts := updateDoc st.shifts docId
            (fun s => { s with timeOut := .valid now }) },
        none)

/-- `addEmployee` (app.js:732-740): store the user document under the
username; `hash` stands for the `hashPassword` result. -/
def addEmployee (st : Store) (username : String) (rate : ℚ) (hash : String) :
    Store :=
  { st with
      users := setDoc st.users username
        { username := username, role := "employee", hourlyRate := rate,
          passwordHash := hash } }

/-- The admin "Add Employee" submit handler (app.js:367-384): reject empty
username or password, reject an existing username (`DuplicateUsername`),
otherwise call `addEmployee`. -/
def addEmployeeFlow (st : Store) (username password : String) (rate : ℚ)
    (hash : String) : Store × Option AddError :=
  if username = "" ∨ password = "" then (st, some .missingFields)
  else
    match getDoc st.users username with
    | some _ => (st, some .duplicateUsername)
    | none => (addEmployee st username rate hash, none)

/-- `deleteEmployee` (app.js:747-755): delete the user document, then query
the shifts whose `username` field equals the user and delete each returned
document id. -/
def deleteEmployee (st : Store) (username : String) : Store :=
  let users' := deleteDoc st.users username
  let ids :=
    (st.shifts.filter (fun p => p.2.username = username)).map (fun p => p.1)
  let shifts' := ids.foldl (fun acc id => deleteDoc acc id) st.shifts
  { st with users := users', shifts := shifts' }

/-- Stable insertion of a shift document into a list sorted ascending by the
`date` field: inserted after all entries whose date is not greater. -/
def insertByDate (x : String × Shift) :
    List (String × Shift) → List (String × Shift)
  | [] => [x]
  | y :: ys =>
    if x.2.date < y.2.date then x :: y :: ys else y :: insertByDate x ys

/-- The stable ascending-by-date sort that
`shifts.sort((a, b) => a.date < b.date ? -1 : a.date > b.date ? 1 : 0)`
performs (app.js:785). -/
def sortByDate (l : List (String × Shift)) : List (String × Shift) :=
  l.foldl (fun acc x => insertByDate x acc) []

/-- `getShiftsForUser` (app.js:776-787): the shift documents (with their
document ids) whose `username` field equals the user, sorted ascending by
date. -/
def getShiftsForUser (st : Store) (username : String) :
    List (String × Shift) :=
  sortByDate (st.shifts.filter (fun p => p.2.username = username))

/-! ## Store lemmas -/

theorem getDoc_overwrite {α : Type} (l : Collection α) (id : String) (v : α) :
    getDoc (l.map (fun p => if p.1 = id then (p.1, v) else p)) id =
      (getDoc l id).map (fun _ => v) := by
  induction l with
  | nil => rfl
  | cons p l ih =>
    by_cases hp : p.1 = id
    · simp [getDoc, List.find?, hp]
    · simpa [getDoc, List.find?, hp] using ih

theorem getDoc_isSome_of_any {α : Type} (l : Collection α) (id : String)
    (h : l.any (fun p => p.1 = id) = true) : ∃ q, getDoc l id = some q := by
  induction l with
  | nil => cases h
  | cons p l ih =>
    by_cases hp : p.1 = id
    · exact ⟨p.2, by simp [getDoc, List.find?, hp]⟩
    · simp only [List.any_cons, Bool.or_eq_true, decide_eq_true_eq] at h
      rcases h with h | h
      · exact absurd h hp
      · rcases ih h with ⟨q, hq⟩
        exact ⟨q, by simpa [getDoc, List.find?, hp] using hq⟩

theorem getDoc_append_single {α : Type} (l : Collection α) (id : String)
    (v : α) (h : l.any (fun p => p.1 = id) = false) :
    getDoc (l ++ [(id, v)]) id = some v := by
  induction l with
  | nil => simp [getDoc, List.find?]
  | cons p l ih =>
    simp only [List.any_cons, Bool.or_eq_false_iff, decide_eq_false_iff_not] at h
    simp only [List.cons_append, getDoc, List.find?, decide_eq_false h.1]
    exact ih h.2

theorem getDoc_setDoc_self {α : Type} (l : Collection α) (id : String)
    (v : α) : getDoc (setDoc l id v) id = some v := by
  unfold setDoc
  by_cases h : l.any (fun p => p.1 = id) = true
  · rw [if_pos h, getDoc_overwrite]
    rcases getDoc_isSome_of_any l id h with ⟨q, hq⟩
    simp [hq]
  · rw [if_neg h, getDoc_append_single l id v (Bool.eq_false_iff.mpr h)]

theorem getDoc_updateDoc_self {α : Type} (l : Collection α) (id : String)
    (f : α → α) : getDoc (updateDoc l id f) id = (getDoc l id).map f := by
  induction l with
  | nil => rfl
  | cons p l ih =>
    by_cases hp : p.1 = id
    · simp [updateDoc, getDoc, List.find?, hp]
    · simpa [updateDoc, getDoc, List.find?, hp] using ih

theorem getDoc_updateDoc_ne {α : Type} (l : Collection α) (id k : String)
    (f : α → α) (hk : k ≠ id) :
    getDoc (updateDoc l id f) k = getDoc l k := by
  induction l with
  | nil => rfl
  | cons p l ih =>
    by_cases hp : p.1 = id
    · have : ¬ p.1 = k := fun h => hk (h ▸ hp ▸ rfl)
      simp [updateDoc, getDoc, List.find?, hp, this, hk.symm] at ih ⊢
      exact ih
    · by_cases hpk : p.1 = k
      · simp [updateDoc, getDoc, List.find?, hp, hpk, hk]
      · simpa [updateDoc, getDoc, List.find?, hp, hpk] using ih

theorem getDoc_deleteDoc_self {α : Type} (l : Collection α) (id : String) :
    getDoc (deleteDoc l id) id = none := by
  induction l with
  | nil => rfl
  | cons p l ih =>
    by_cases hp : p.1 = id
    · simp [deleteDoc, hp] at ih ⊢
      exact ih
    · have hcons : deleteDoc (p :: l) id = p :: deleteDoc l id := by
        simp [deleteDoc, hp]
      rw [hcons]
      simp only [getDoc, List.find?, decide_eq_false hp]
      exact ih

/-- Totals of `updateTable` as sums over the per-row values. -/
theorem updateTableTotals_eq_sum (shifts : List Shift) (rate : ℚ) :
    updateTableTotals shifts rate =
      ((shifts.map (fun s => (computeRow s rate).1)).sum,
       (shifts.map (fun s => (computeRow s rate).2)).sum) := by
  have key : ∀ (l : List Shift) (init : ℚ × ℚ),
      l.foldl (fun acc s =>
          let r := computeRow s rate
          (acc.1 + r.1, acc.2 + r.2)) init =
        (init.1 + (l.map (fun s => (computeRow s rate).1)).sum,
         init.2 + (l.map (fun s => (computeRow s rate).2)).sum) := by
    intro l
    induction l with
    | nil => intro init; simp
    | cons s l ih =>
      intro init
      simp only [List.foldl_cons, List.map_cons, List.sum_cons, ih]
      simp only [Prod.mk.injEq]
      constructor <;> ring
  simpa using key shifts (0, 0)

/-! ## Claims -/

/-- C1: for minute-precision timestamps with `end ≥ start`, `computeHours`
returns (elapsed whole minutes)/60 — the rounding to the nearest minute
happening before the division by 60; for `end < start` or a missing or
unparseable endpoint it returns 0; the result is never negative (the
embedding is a total function, so no exception is possible). -/
theorem computeHours_spec :
    (∀ a b : Int, (60000 : Int) ∣ a → (60000 : Int) ∣ b → a ≤ b →
      computeHours (.valid a) (.valid b) = ((b : ℚ) - (a : ℚ)) / 60000 / 60) ∧
    (∀ a b : Int, b < a → computeHours (.valid a) (.valid b) = 0) ∧
    (∀ e, computeHours .empty e = 0) ∧
    (∀ s, computeHours s .empty = 0) ∧
    (∀ r e, computeHours (.invalid r) e = 0) ∧
    (∀ s r, computeHours s (.invalid r) = 0) ∧
    (∀ s e, 0 ≤ computeHours s e) := by
  have hvalid : ∀ a b : Int, computeHours (.valid a) (.valid b) =
      if (b - a : Int) < 0 then 0
      else (jsRound (((b - a : Int) : ℚ) / 60000) : ℚ) / 60 := fun a b => rfl
  have hempty : ∀ s, computeHours s .empty = 0 := by
    intro s; cases s <;> rfl
  have hinvalid : ∀ s r, computeHours s (.invalid r) = 0 := by
    intro s r; cases s <;> rfl
  refine ⟨?_, ?_, fun e => rfl, hempty, fun r e => rfl, hinvalid, ?_⟩
  · intro a b ha hb hab
    rcases ha with ⟨a', rfl⟩
    rcases hb with ⟨b', rfl⟩
    rw [hvalid, if_neg (by omega)]
    have hdiff : (((60000 * b' - 60000 * a' : Int) : ℚ)) / 60000 =
        ((b' - a' : Int) : ℚ) := by
      push_cast
      field_simp
      ring
    rw [hdiff]
    have hround : jsRound ((b' - a' : Int) : ℚ) = b' - a' := by
      unfold jsRound
      rw [Int.floor_int_add]
      norm_num
    rw [hround]
    push_cast
    field_simp
    ring
  · intro a b hba
    rw [hvalid, if_pos (by omega)]
  · intro s e
    cases s with
    | empty => exact le_refl 0
    | invalid r => exact le_refl 0
    | valid a =>
      cases e with
      | empty => rw [hempty]
      | invalid r => rw [hinvalid]
      | valid b =>
        rw [hvalid]
        by_cases hneg : (b - a : Int) < 0
        · rw [if_pos hneg]
        · rw [if_neg hneg]
          have hba : (0 : Int) ≤ b - a := by omega
          have hq : (0 : ℚ) ≤ ((b - a : Int) : ℚ) / 60000 := by
            apply div_nonneg _ (by norm_num)
            exact_mod_cast hba
          have : (0 : Int) ≤ jsRound (((b - a : Int) : ℚ) / 60000) := by
            unfold jsRound
            rw [Int.le_floor]
            push_cast at hq ⊢
            linarith
          apply div_nonneg _ (by norm_num)
          exact_mod_cast this

/-- Witness for C1: one hour punched from epoch minute 0 to epoch minute 1
· 60000 ms gives exactly one minute, i.e. 1/60 hours. -/
theorem computeHours_spec_witness :
    computeHours (.valid 0) (.valid 60000) =
      ((60000 : ℚ) - (0 : ℚ)) / 60000 / 60 := by
  have h := computeHours_spec.1 0 60000 ⟨0, by norm_num⟩ ⟨1, by norm_num⟩
    (by norm_num)
  simpa using h

/-- C2: for every day `d` and anchor, the bounds of period
`floor((d - anchor) / 14)` contain `d` (negative indices included, since `/`
here is floor division for the positive divisor 14); concretely, with anchor
2025-01-01, date 2025-01-20 has index 1 and bounds 2025-01-15 … 2025-01-28. -/
theorem periodBounds_contain_date :
    (∀ d anchor : Int,
      (periodBounds (periodIndexOf d anchor) anchor).1 ≤ d ∧
      d ≤ (periodBounds (periodIndexOf d anchor) anchor).2) ∧
    periodIndexOf (daysFromCivil 2025 1 20) (daysFromCivil 2025 1 1) = 1 ∧
    periodBounds 1 (daysFromCivil 2025 1 1) =
      (daysFromCivil 2025 1 15, daysFromCivil 2025 1 28) := by
  refine ⟨?_, by decide, by decide⟩
  intro d anchor
  simp only [periodBounds, periodIndexOf]
  omega

/-- C3: the effective start is `adjTimeIn` whenever that is set (so `timeIn`
is ignored: replacing `timeIn` by anything leaves the result unchanged), else
`timeIn`; symmetrically for the effective end.  Both are pure functions of
the stored field values, so the order in which the fields were written cannot
matter. -/
theorem effectiveRange_precedence :
    ∀ s : Shift,
      (s.adjTimeIn.truthy = true → effectiveStart s = s.adjTimeIn) ∧
      (s.adjTimeIn.truthy = false → effectiveStart s = s.timeIn) ∧
      (s.adjTimeOut.truthy = true → effectiveEnd s = s.adjTimeOut) ∧
      (s.adjTimeOut.truthy = false → effectiveEnd s = s.timeOut) ∧
      (∀ t : TimeStr, s.adjTimeIn.truthy = true →
        effectiveStart { s with timeIn := t } = s.adjTimeIn) ∧
      (∀ t : TimeStr, s.adjTimeOut.truthy = true →
        effectiveEnd { s with timeOut := t } = s.adjTimeOut) := by
  intro s
  refine ⟨fun h => ?_, fun h => ?_, fun h => ?_, fun h => ?_,
    fun t h => ?_, fun t h => ?_⟩ <;>
    simp [effectiveStart, effectiveEnd, h]

/-- Witness for C3: with `adjTimeIn` set to 10:00 and `timeIn` 09:00, the
effective start is the adjustment. -/
theorem effectiveRange_precedence_witness :
    effectiveStart
      { username := "alice", date := "2025-01-02",
        timeIn := .valid 32400000, timeOut := .empty,
        adjTimeIn := .valid 36000000, adjTimeOut := .empty } =
      .valid 36000000 :=
  (effectiveRange_precedence _).1 rfl

/-- A clocked-in shift (punched in at 09:00 UTC on 1970-01-01 for short
numbers), used by the concrete witnesses. -/
def shiftClockedIn : Shift :=
  { username := "alice", date := "2025-01-02", timeIn := .valid 32400000,
    timeOut := .empty, adjTimeIn := .empty, adjTimeOut := .empty }

/-- A store holding just that clocked-in shift. -/
def storeClockedIn : Store :=
  { users := [], shifts := [("alice_2025-01-02", shiftClockedIn)],
    payPeriodConfig := [] }

/-- The store after `punchOut` at 17:15 (62100000 ms). -/
def storeClockedOut : Store :=
  { users := [],
    shifts := [("alice_2025-01-02",
      { shiftClockedIn with timeOut := .valid 62100000 })],
    payPeriodConfig := [] }

/-- C4: when today's shift document already has a truthy `timeIn`, `punchIn`
fails with `AlreadyPunchedIn` and returns the store untouched; consequently
the second of two `punchIn` calls on the same user/day always fails this
way, whatever the starting store. -/
theorem punchIn_already :
    (∀ (st : Store) (u date : String) (now : Int) (data : Shift),
      getDoc st.shifts (u ++ "_" ++ date) = some data →
      data.timeIn.truthy = true →
      punchIn st u date now = (st, some .alreadyPunchedIn)) ∧
    (∀ (st : Store) (u date : String) (n₁ n₂ : Int),
      punchIn (punchIn st u date n₁).1 u date n₂ =
        ((punchIn st u date n₁).1, some .alreadyPunchedIn)) := by
  have hfail : ∀ (st : Store) (u date : String) (now : Int) (data : Shift),
      getDoc st.shifts (u ++ "_" ++ date) = some data →
      data.timeIn.truthy = true →
      punchIn st u date now = (st, some .alreadyPunchedIn) := by
    intro st u date now data h ht
    simp [punchIn, h, ht]
  refine ⟨hfail, ?_⟩
  intro st u date n₁ n₂
  have hafter : ∃ d : Shift,
      getDoc (punchIn st u date n₁).1.shifts (u ++ "_" ++ date) = some d ∧
      d.timeIn.truthy = true := by
    cases h : getDoc st.shifts (u ++ "_" ++ date) with
    | none =>
      exact ⟨{ username := u, date := date, timeIn := .valid n₁,
               timeOut := .empty, adjTimeIn := .empty, adjTimeOut := .empty },
             by simp [punchIn, h, getDoc_setDoc_self], rfl⟩
    | some data =>
      cases ht : data.timeIn.truthy with
      | true => exact ⟨data, by simp [punchIn, h, ht, h], ht⟩
      | false =>
        exact ⟨{ username := u, date := date, timeIn := .valid n₁,
                 timeOut := .empty, adjTimeIn := .empty, adjTimeOut := .empty },
               by simp [punchIn, h, ht, getDoc_setDoc_self], rfl⟩
  rcases hafter with ⟨d, hd, hdt⟩
  exact hfail _ u date n₂ d hd hdt

/-- Witness for C4: punching in over the clocked-in demo store fails with
`AlreadyPunchedIn`, leaving the store as it was. -/
theorem punchIn_already_witness :
    punchIn storeClockedIn "alice" "2025-01-02" 36000000 =
      (storeClockedIn, some .alreadyPunchedIn) :=
  punchIn_already.1 storeClockedIn "alice" "2025-01-02" 36000000
    shiftClockedIn (by decide) rfl

/-- C5: `punchOut` fails with `NotPunchedIn` when the shift document is
absent or its `timeIn` is unset, fails with `AlreadyPunchedOut` when
`timeOut` is already set, succeeds exactly when `timeIn` is set and
`timeOut` unset — then recording `timeOut := now` — and leaves the store
unchanged whenever it fails. -/
theorem punchOut_spec :
    (∀ (st : Store) (u date : String) (now : Int),
      getDoc st.shifts (u ++ "_" ++ date) = none →
      punchOut st u date now = (st, some .notPunchedIn)) ∧
    (∀ (st : Store) (u date : String) (now : Int) (data : Shift),
      getDoc st.shifts (u ++ "_" ++ date) = some data →
      data.timeIn.truthy = false →
      punchOut st u date now = (st, some .notPunchedIn)) ∧
    (∀ (st : Store) (u date : String) (now : Int) (data : Shift),
      getDoc st.shifts (u ++ "_" ++ date) = some data →
      data.timeIn.truthy = true → data.timeOut.truthy = true →
      punchOut st u date now = (st, some .alreadyPunchedOut)) ∧
    (∀ (st : Store) (u date : String) (now : Int) (data : Shift),
      getDoc st.shifts (u ++ "_" ++ date) = some data →
      data.timeIn.truthy = true → data.timeOut.truthy = false →
      (punchOut st u date now).2 = none ∧
      getDoc (punchOut st u date now).1.shifts (u ++ "_" ++ date) =
        some { data with timeOut := .valid now }) ∧
    (∀ (st : Store) (u date : String) (now : Int),
      (punchOut st u date now).2 ≠ none →
      (punchOut st u date now).1 = st) := by
  refine ⟨?_, ?_, ?_, ?_, ?_⟩
  · intro st u date now h
    simp [punchOut, h]
  · intro st u date now data h ht
    simp [punchOut, h, ht]
  · intro st u date now data h ht hout
    simp [punchOut, h, ht, hout]
  · intro st u date now data h ht hout
    refine ⟨by simp [punchOut, h, ht, hout], ?_⟩
    simp [punchOut, h, ht, hout, getDoc_updateDoc_self]
  · intro st u date now hne
    cases h : getDoc st.shifts (u ++ "_" ++ date) with
    | none => simp [punchOut, h]
    | some data =>
      cases ht : data.timeIn.truthy with
      | false => simp [punchOut, h, ht]
      | true =>
        cases hout : data.timeOut.truthy with
        | true => simp [punchOut, h, ht, hout]
        | false =>
          exact absurd (by simp [punchOut, h, ht, hout]) hne

/-- Witness for C5: punching out of the clocked-in demo store succeeds and
records `timeOut`. -/
theorem punchOut_spec_witness :
    (punchOut storeClockedIn "alice" "2025-01-02" 62100000).2 = none ∧
    getDoc (punchOut storeClockedIn "alice" "2025-01-02" 62100000).1.shifts
        ("alice" ++ "_" ++ "2025-01-02") =
      some { shiftClockedIn with timeOut := .valid 62100000 } :=
  punchOut_spec.2.2.2.1 storeClockedIn "alice" "2025-01-02" 62100000
    shiftClockedIn (by decide) rfl rfl

/-- C10: a successful `punchOut` changes nothing but the `timeOut` field of
today's shift document: the `users` and `settings` collections are
untouched, every other shift document is untouched, and the target document
keeps its `username`, `date`, `timeIn`, `adjTimeIn` and `adjTimeOut`. -/
theorem punchOut_frame :
    ∀ (st st' : Store) (u date : String) (now : Int),
      punchOut st u date now = (st', none) →
      st'.users = st.users ∧
      st'.payPeriodConfig = st.payPeriodConfig ∧
      (∀ k, k ≠ u ++ "_" ++ date →
        getDoc st'.shifts k = getDoc st.shifts k) ∧
      (∀ data : Shift, getDoc st.shifts (u ++ "_" ++ date) = some data →
        getDoc st'.shifts (u ++ "_" ++ date) =
          some { username := data.username, date := data.date,
                 timeIn := data.timeIn, timeOut := .valid now,
                 adjTimeIn := data.adjTimeIn,
                 adjTimeOut := data.adjTimeOut }) := by
  intro st st' u date now hsucc
  cases h : getDoc st.shifts (u ++ "_" ++ date) with
  | none => simp [punchOut, h] at hsucc
  | some data =>
    cases ht : data.timeIn.truthy with
    | false => simp [punchOut, h, ht] at hsucc
    | true =>
      cases hout : data.timeOut.truthy with
      | true => simp [punchOut, h, ht, hout] at hsucc
      | false =>
        have hred : punchOut st u date now =
            ({ st with
                shifts := (updateDoc st.shifts (u ++ "_" ++ date)
                  (fun s => { s with timeOut := .valid now })) }, none) := by
          simp [punchOut, h, ht, hout]
        rw [hred] at hsucc
        have hst' : st' =
            { st with
                shifts := (updateDoc st.shifts (u ++ "_" ++ date)
                  (fun s => { s with timeOut := .valid now })) } :=
          (congrArg Prod.fst hsucc).symm
        subst hst'
        refine ⟨rfl, rfl, ?_, ?_⟩
        · intro k hk
          exact getDoc_updateDoc_ne st.shifts (u ++ "_" ++ date) k
            (fun s => { s with timeOut := .valid now }) hk
        · intro d hd
          obtain rfl : data = d := by injection hd
          have hself : getDoc (updateDoc st.shifts (u ++ "_" ++ date)
              (fun s => { s with timeOut := .valid now })) (u ++ "_" ++ date) =
              (getDoc st.shifts (u ++ "_" ++ date)).map
                (fun s => { s with timeOut := .valid now }) :=
            getDoc_updateDoc_self _ _ _
          rw [h] at hself
          exact hself

/-- Witness for C10: the clocked-out demo store is the successful
`punchOut` of the clocked-in one, and only `timeOut` changed. -/
theorem punchOut_frame_witness :
    storeClockedOut.users = storeClockedIn.users ∧
    storeClockedOut.payPeriodConfig = storeClockedIn.payPeriodConfig ∧
    getDoc storeClockedOut.shifts ("alice" ++ "_" ++ "2025-01-02") =
      some { username := "alice", date := "2025-01-02",
             timeIn := .valid 32400000, timeOut := .valid 62100000,
             adjTimeIn := .empty, adjTimeOut := .empty } := by
  have h := punchOut_frame storeClockedIn storeClockedOut "alice"
    "2025-01-02" 62100000 (by decide)
  exact ⟨h.1, h.2.1, h.2.2.2 shiftClockedIn (by decide)⟩

/-- The spec's example shift: timeIn 09:00, timeOut 17:15 (minute-precision
epoch milliseconds, 540 and 1035 minutes), no adjustments. -/
def exampleShift : Shift :=
  { username := "alice", date := "2025-01-02",
    timeIn := .valid 32400000, timeOut := .valid 62100000,
    adjTimeIn := .empty, adjTimeOut := .empty }

/-- C6: when both effective endpoints are present a row's hours come from
`computeHours` on the effective range and its pay is the cent-rounded
`hours × rate`; when either endpoint is missing the row is `(0, 0)`, so it
adds nothing to the totals, while still producing a rendered row (the row
list keeps one entry per shift); concretely 09:00–17:15 at rate 20 gives
8.25 hours and pay 165.00. -/
theorem computeRow_spec :
    (∀ (s : Shift) (rate : ℚ),
      (effectiveStart s).truthy = true → (effectiveEnd s).truthy = true →
      computeRow s rate =
        (computeHours (effectiveStart s) (effectiveEnd s),
         roundCent (computeHours (effectiveStart s) (effectiveEnd s) *
           rate))) ∧
    (∀ (s : Shift) (rate : ℚ),
      (effectiveStart s).truthy = false ∨ (effectiveEnd s).truthy = false →
      computeRow s rate = (0, 0)) ∧
    (∀ (shifts : List Shift) (rate : ℚ),
      (updateTableRows shifts rate).length = shifts.length) ∧
    (∀ (shifts : List Shift) (rate : ℚ),
      updateTableTotals shifts rate =
        (((updateTableRows shifts rate).map (fun r => r.2.1)).sum,
         ((updateTableRows shifts rate).map (fun r => r.2.2)).sum)) ∧
    computeRow exampleShift 20 = (33/4, 165) := by
  refine ⟨?_, ?_, ?_, ?_, ?_⟩
  · intro s rate h1 h2
    simp [computeRow, h1, h2]
  · intro s rate h
    rcases h with h | h <;> simp [computeRow, h]
  · intro shifts rate
    simp [updateTableRows]
  · intro shifts rate
    rw [updateTableTotals_eq_sum]
    simp only [updateTableRows, List.map_map, Function.comp_def]
  · norm_num [computeRow, effectiveStart, effectiveEnd, exampleShift,
      TimeStr.truthy, computeHours, TimeStr.parse, jsRound, roundCent]

/-- Witness for C6: the example shift has both endpoints, so the row is the
`computeHours`/`roundCent` pair. -/
theorem computeRow_spec_witness :
    computeRow exampleShift 20 =
      (computeHours (effectiveStart exampleShift) (effectiveEnd exampleShift),
       roundCent (computeHours (effectiveStart exampleShift)
         (effectiveEnd exampleShift) * 20)) :=
  computeRow_spec.1 exampleShift 20 rfl rfl

/-- A 15-minute shift (09:00–09:15); at rate 19.98 its exact pay 4.995
rounds up to 5.00 per row. -/
def quarterShift : Shift :=
  { username := "alice", date := "2025-01-02",
    timeIn := .valid 32400000, timeOut := .valid 33300000,
    adjTimeIn := .empty, adjTimeOut := .empty }

/-- C7: the period's total pay is the sum of the per-row pay values, each
already rounded to the cent — not a rounding of the unrounded aggregate —
and the two policies really differ: two 15-minute rows at rate 19.98 total
10.00 per-row, while rounding the aggregate 9.99 gives 9.99, one cent less. -/
theorem totals_round_per_row :
    (∀ (shifts : List Shift) (rate : ℚ),
      (updateTableTotals shifts rate).2 =
        (shifts.map (fun s => (computeRow s rate).2)).sum) ∧
    (updateTableTotals [quarterShift, quarterShift] (999/50)).2 = 10 ∧
    roundCent
      (computeHours (effectiveStart quarterShift)
          (effectiveEnd quarterShift) * (999/50) +
        computeHours (effectiveStart quarterShift)
          (effectiveEnd quarterShift) * (999/50)) = 999/100 ∧
    (10 : ℚ) - 999/100 = 1/100 := by
  refine ⟨?_, ?_, ?_, by norm_num⟩
  · intro shifts rate
    rw [updateTableTotals_eq_sum]
  · norm_num [updateTableTotals, computeRow, effectiveStart, effectiveEnd,
      quarterShift, TimeStr.truthy, computeHours, TimeStr.parse, jsRound,
      roundCent]
  · norm_num [effectiveStart, effectiveEnd, quarterShift, TimeStr.truthy,
      computeHours, TimeStr.parse, jsRound, roundCent]

/-- Every entry surviving the fold of `deleteDoc` calls was in the original
collection and its key is none of the deleted ids. -/
theorem mem_foldl_deleteDoc {α : Type} (ids : List String)
    (l : Collection α) (p : String × α)
    (hp : p ∈ ids.foldl (fun acc id => deleteDoc acc id) l) :
    p ∈ l ∧ p.1 ∉ ids := by
  induction ids generalizing l with
  | nil => exact ⟨hp, by simp⟩
  | cons id ids ih =>
    simp only [List.foldl_cons] at hp
    rcases ih (deleteDoc l id) hp with ⟨hmem, hnot⟩
    have hml : p ∈ l ∧ ¬ p.1 = id := by
      simpa [deleteDoc, List.mem_filter] using hmem
    refine ⟨hml.1, ?_⟩
    simp only [List.mem_cons, not_or]
    exact ⟨hml.2, hnot⟩

/-- C8: after `deleteEmployee u`, `getShiftsForUser u` is empty — every
shift document whose `username` field is `u` was deleted — and the user
document itself is gone. -/
theorem deleteEmployee_clears_user :
    ∀ (st : Store) (u : String),
      getShiftsForUser (deleteEmployee st u) u = [] ∧
      getDoc (deleteEmployee st u).users u = none := by
  intro st u
  constructor
  · have hempty : ∀ p ∈ (deleteEmployee st u).shifts,
        ¬ p.2.username = u := by
      intro p hp hu
      have hfold : p ∈ ((st.shifts.filter
          (fun q => q.2.username = u)).map (fun q => q.1)).foldl
            (fun acc id => deleteDoc acc id) st.shifts := hp
      rcases mem_foldl_deleteDoc _ _ p hfold with ⟨hmem, hnot⟩
      apply hnot
      apply List.mem_map.mpr
      exact ⟨p, List.mem_filter.mpr ⟨hmem, by simpa using hu⟩, rfl⟩
    have hnil : (deleteEmployee st u).shifts.filter
        (fun p => p.2.username = u) = [] := by
      rw [List.filter_eq_nil_iff]
      intro p hp
      simpa using hempty p hp
    unfold getShiftsForUser
    rw [hnil]
    rfl
  · exact getDoc_deleteDoc_self st.users u

/-- An existing employee record for the duplicate-username witness. -/
def demoUser : User :=
  { username := "alice", role := "employee", hourlyRate := 20,
    passwordHash := "h1" }

/-- A store already holding `alice`. -/
def storeWithAlice : Store :=
  { users := [("alice", demoUser)], shifts := [], payPeriodConfig := [] }

/-- C9: adding an employee whose username is already a key of `users` leaves
the store — in particular the existing user document with its role, rate and
password hash — unchanged, and (when the submitted username and password are
non-empty, so the form's earlier validation does not fire first) fails with
`DuplicateUsername`. -/
theorem addEmployee_duplicate :
    ∀ (st : Store) (uname pwd : String) (rate : ℚ) (hash : String)
      (u₀ : User),
      getDoc st.users uname = some u₀ →
      (addEmployeeFlow st uname pwd rate hash).1 = st ∧
      getDoc (addEmployeeFlow st uname pwd rate hash).1.users uname =
        some u₀ ∧
      (uname ≠ "" → pwd ≠ "" →
        (addEmployeeFlow st uname pwd rate hash).2 =
          some .duplicateUsername) := by
  intro st uname pwd rate hash u₀ h
  by_cases hmf : uname = "" ∨ pwd = ""
  · refine ⟨by simp [addEmployeeFlow, hmf], by simp [addEmployeeFlow, hmf, h],
      fun h1 h2 => ?_⟩
    rcases hmf with hm | hm
    exacts [absurd hm h1, absurd hm h2]
  · exact ⟨by simp [addEmployeeFlow, hmf, h],
      by simp [addEmployeeFlow, hmf, h], fun _ _ => by
        simp [addEmployeeFlow, hmf, h]⟩

/-- Witness for C9: re-adding `alice` over `storeWithAlice` fails with
`DuplicateUsername` and preserves her record. -/
theorem addEmployee_duplicate_witness :
    (addEmployeeFlow storeWithAlice "alice" "pw" 22 "h2").1 =
      storeWithAlice ∧
    getDoc (addEmployeeFlow storeWithAlice "alice" "pw" 22 "h2").1.users
      "alice" = some demoUser ∧
    (addEmployeeFlow storeWithAlice "alice" "pw" 22 "h2").2 =
      some .duplicateUsername := by
  have h := addEmployee_duplicate storeWithAlice "alice" "pw" 22 "h2"
    demoUser (by decide)
  exact ⟨h.1, h.2.1, h.2.2 (by decide) (by decide)⟩

end Timekeeper
